import Mathlib

/-!
Verification of the trade execution and position lifecycle subsystem.

Shallow embedding of the core trading components:
* the position monitor's trailing-stop / take-profit machine
  (src/workers/position-monitor-v2.ts, monitorPositions),
* the executor nonce coordinator (SafeModuleService.getNextNonce),
* position sizing and pre-trade validation (TradeExecutor),
* the idempotent close path (TradeExecutor.closePosition),
* the open path's persistence discipline (TradeExecutor.executeSpotTrade),
* the store-level uniqueness of Position per (deployment, signal)
  (unique index positions_deployment_id_signal_id_key plus the
  check-then-create in the execute-trade handler).

Prices, balances and notionals are modelled as rationals; transaction
hashes and timestamps as naturals.
-/

namespace Maxxit

/-- Trade side as stored on signals and positions. The monitor treats
BUY and LONG as the long side (side === 'BUY' || side === 'LONG'). -/
inductive Side
  | BUY
  | SELL
  | LONG
  | SHORT
deriving DecidableEq, Repr

/-- Long-side test used by the position monitor. -/
def Side.isLong : Side → Bool
  | .BUY => true
  | .LONG => true
  | _ => false

/-- JavaScript-style defaulting x || d on an optional numeric field:
a missing value or a zero value falls back to the default. -/
def jsOrQ : Option ℚ → ℚ → ℚ
  | none, d => d
  | some x, d => if x = 0 then d else x

/-- The trailingParams JSON blob stored on a Position
(enabled, trailingPercent, highestPrice, lowestPrice). -/
structure TrailingParams where
  enabled : Bool
  trailingPercent : Option ℚ
  highestPrice : Option ℚ
  lowestPrice : Option ℚ
deriving DecidableEq, Repr

/-- Close trigger reasons produced by the monitor cycle. -/
inductive CloseReason
  | TRAILING_STOP
  | TAKE_PROFIT
deriving DecidableEq, Repr

/-- Trailing-stop evaluation of one monitor cycle for one position, from
position-monitor-v2.ts lines 140-211: maintains the high-water mark
(highest price for longs, lowest for shorts, persisted only when it
moves), activates once the mark passes a hardcoded 3% favorable move
from entry, and triggers once active when the current price retraces by
trailingPercent (default 1%) from the mark. Returns the updated params
and whether TRAILING_STOP triggered. -/
def trailingCheck (side : Side) (entryPrice : ℚ) (tp : TrailingParams)
    (currentPrice : ℚ) : TrailingParams × Bool :=
  if ¬ tp.enabled then (tp, false)
  else
    let trailingPercent := jsOrQ tp.trailingPercent 1
    if side.isLong then
      let activationThreshold := entryPrice * (103 / 100)
      let highestPrice := jsOrQ tp.highestPrice entryPrice
      let newHighest := max highestPrice currentPrice
      let tp2 :=
        if newHighest > highestPrice then
          { tp with highestPrice := some newHighest }
        else tp
      if newHighest ≥ activationThreshold ∧
          currentPrice ≤ newHighest * (1 - trailingPercent / 100) then
        (tp2, true)
      else (tp2, false)
    else
      let activationThreshold := entryPrice * (97 / 100)
      let lowestPrice := jsOrQ tp.lowestPrice entryPrice
      let newLowest := min lowestPrice currentPrice
      let tp2 :=
        if newLowest < lowestPrice then
          { tp with lowestPrice := some newLowest }
        else tp
      if newLowest ≤ activationThreshold ∧
          currentPrice ≥ newLowest * (1 + trailingPercent / 100) then
        (tp2, true)
      else (tp2, false)

/-- Take-profit evaluation from position-monitor-v2.ts lines 234-248:
guarded by JavaScript truthiness of takeProfit (absent or zero skips),
a long triggers when currentPrice >= takeProfit, a short when
currentPrice <= takeProfit. -/
def takeProfitCheck (side : Side) (takeProfit : Option ℚ)
    (currentPrice : ℚ) : Bool :=
  match takeProfit with
  | none => false
  | some t =>
    if t = 0 then false
    else if side.isLong then decide (currentPrice ≥ t)
    else decide (currentPrice ≤ t)

/-- One monitor cycle for one open position: the trailing stop is
evaluated first; the take-profit check runs only when the trailing stop
did not trigger (code: if (!shouldClose && takeProfit)), so at most one
close reason is produced per cycle. The fixed stop-loss channel is
commented out in the source and is not modelled. -/
def monitorStep (side : Side) (entryPrice : ℚ) (tp : TrailingParams)
    (takeProfit : Option ℚ) (currentPrice : ℚ) :
    TrailingParams × Option CloseReason :=
  let res := trailingCheck side entryPrice tp currentPrice
  if res.2 then (res.1, some .TRAILING_STOP)
  else if takeProfitCheck side takeProfit currentPrice then
    (res.1, some .TAKE_PROFIT)
  else (res.1, none)

/-- Monitor cycles over a price path, threading the trailing state and
returning the first triggered close (price and reason), if any. A
successful close removes the position from later cycles. -/
def monitorRun (side : Side) (entryPrice : ℚ) (takeProfit : Option ℚ) :
    TrailingParams → List ℚ → Option (ℚ × CloseReason)
  | _, [] => none
  | tp, price :: rest =>
    match monitorStep side entryPrice tp takeProfit price with
    | (_, some r) => some (price, r)
    | (tp2, none) => monitorRun side entryPrice takeProfit tp2 rest

/-- The trailingParams written at position creation
(trade-executor, executeSpotTrade): enabled, 1% trail, no mark yet. -/
def initialTrailing : TrailingParams :=
  { enabled := true, trailingPercent := some 1,
    highestPrice := none, lowestPrice := none }

/-- TrailingParams with the trailing stop disabled. -/
def noTrailParams : TrailingParams :=
  { enabled := false, trailingPercent := none,
    highestPrice := none, lowestPrice := none }

/-- One nonce acquisition of SafeModuleService.getNextNonce: with no
cached nonce the freshly read on-chain transaction count is returned;
with a cached nonce the result is the increment, bumped up to the
re-read on-chain count if that is ahead (max of cached+1 and the
network count). -/
def nonceStep : Option ℕ → ℕ → ℕ
  | none, networkRead => networkRead
  | some cached, networkRead => max (cached + 1) networkRead

/-- A serialized sequence of nonce acquisitions for one executor
identity: each acquisition consumes one (possibly stale-free) network
reading, returns a nonce and caches it for the next acquisition. -/
def acquireSeq : Option ℕ → List ℕ → List ℕ
  | _, [] => []
  | cached, r :: rs =>
    let n := nonceStep cached r
    n :: acquireSeq (some n) rs

/-- Size model tags: the source branches on sizeModel.type === 'fixed-usdc'
and lumps every other tag (including 'balance-percentage') into the
percentage branch. -/
inductive SizeModelType
  | fixedUsdc
  | balancePercentage
deriving DecidableEq, Repr

/-- The loosely-typed sizeModel document stored on a Signal. -/
structure SizeModel where
  type : SizeModelType
  value : Option ℚ
deriving DecidableEq, Repr

/-- Position sizing from TradeExecutor.executeSpotTrade lines 351-375:
fixed-usdc uses the requested amount (sizeModel.value || 0); any other
type uses percentage-of-balance with default 5% (sizeModel.value || 5). -/
def positionSizeOf (m : SizeModel) (usdcBalance : ℚ) : ℚ :=
  match m.type with
  | .fixedUsdc => jsOrQ m.value 0
  | _ => usdcBalance * jsOrQ m.value 5 / 100

/-- Outcome of the sizing checks inside executeSpotTrade. -/
inductive SizingOutcome
  | proceed (notional : ℚ)
  | tooSmall
  | insufficientBalance
deriving DecidableEq, Repr

/-- Sizing decision from executeSpotTrade lines 377-393, in source
order: the 0.1 USDC minimum first, then the fixed-usdc balance guard
(requested amount must not exceed the wallet balance; the size is never
clamped). -/
def sizingDecision (m : SizeModel) (usdcBalance : ℚ) : SizingOutcome :=
  let s := positionSizeOf m usdcBalance
  if s < 1 / 10 then .tooSmall
  else if m.type = .fixedUsdc ∧ s > usdcBalance then .insufficientBalance
  else .proceed s

/-- Venues from the venue_t enum. -/
inductive Venue
  | SPOT
  | GMX
  | HYPERLIQUID
deriving DecidableEq, Repr

/-- Failure reasons of the pre-trade validator, one per check. -/
inductive PreReason
  | venueUnavailable
  | noCollateral
  | positionTooSmall
  | tokenNotRegistered
deriving DecidableEq, Repr

/-- Inputs gathered by TradeExecutor.preTradeValidation: whether a
venues_status row exists for (venue, token), the live USDC balance of
the Safe, the signal's sizeModel.value, the venue, and whether a
token_registry row exists for the deployment's chain. -/
structure PreTradeInput where
  venueStatusExists : Bool
  usdcBalance : ℚ
  sizeValue : ℚ
  venue : Venue
  tokenRegistered : Bool
deriving DecidableEq, Repr

/-- Result shape of the pre-trade validator. -/
structure PreTradeResult where
  canExecute : Bool
  reason : Option PreReason
deriving DecidableEq, Repr

/-- TradeExecutor.preTradeValidation lines 188-280, a pure decision
function with the four checks in source order, short-circuiting on the
first failure: venue availability, non-zero USDC balance, the
requiredCollateral = usdcBalance * sizeModel.value / 100 being non-zero,
and (for SPOT) the token registry lookup. -/
def preTradeValidation (i : PreTradeInput) : PreTradeResult :=
  if ¬ i.venueStatusExists then ⟨false, some .venueUnavailable⟩
  else if i.usdcBalance = 0 then ⟨false, some .noCollateral⟩
  else if i.usdcBalance * i.sizeValue / 100 = 0 then
    ⟨false, some .positionTooSmall⟩
  else if i.venue = .SPOT ∧ ¬ i.tokenRegistered then
    ⟨false, some .tokenNotRegistered⟩
  else ⟨true, none⟩

/-- Position size as the specification words it, for comparison with
the validator's check: a fixed-usdc model requests its value, a
percentage model requests that percentage of the balance. -/
def specPositionSize (t : SizeModelType) (v usdcBalance : ℚ) : ℚ :=
  match t with
  | .fixedUsdc => v
  | _ => usdcBalance * v / 100

/-- A Position row, restricted to the fields the close path touches. -/
structure PositionRec where
  closedAt : Option ℕ
  exitPrice : Option ℚ
  exitTxHash : Option ℕ
  qty : ℚ
  pnl : Option ℚ
  entryPrice : ℚ
  side : Side
deriving DecidableEq, Repr

/-- Environment consumed by one close invocation: the token registry
lookup, the live on-chain token balance of the Safe (read instead of
the stored qty), the oracle exit price, the outcomes of the approval
transaction and of the allowance re-check, configuration presence, and
the close submission outcome. -/
structure CloseEnv where
  tokenRegistered : Bool
  actualBalance : ℚ
  oraclePrice : ℚ
  approvalOk : Bool
  alreadyApproved : Bool
  executorConfigured : Bool
  routerConfigured : Bool
  submitOk : Bool
  submitTxHash : ℕ
  now : ℕ
deriving DecidableEq, Repr

/-- Structured outcomes of TradeExecutor.closePosition. The alreadyClosed
outcome is the structured early return for a position whose closedAt is
set (source line 736: success:false with a Position-already-closed
message), produced before any chain interaction. -/
inductive CloseOutcome
  | closed
  | alreadyClosed
  | tokenNotFound
  | nothingToClose
  | approvalFailed
  | configMissing
  | submitFailed
deriving DecidableEq, Repr

/-- TradeExecutor.closePosition / closeSpotPosition lines 716-1005 as a
state transition on the position. The third component counts on-chain
transactions submitted (the approval attempt and the close itself).
Source order: the closedAt guard first, then registry lookup, live
balance check, executor key and router configuration, the idempotent
approval step (a failed approval is tolerated when the allowance
re-check passes), PnL computation from the oracle price (the source
compares side === 'LONG' only), the close submission, and finally the
terminal mutation setting closedAt, exitPrice, exitTxHash, qty and pnl. -/
def closePositionExec (p : PositionRec) (env : CloseEnv) :
    PositionRec × CloseOutcome × ℕ :=
  if p.closedAt.isSome then (p, .alreadyClosed, 0)
  else if ¬ env.tokenRegistered then (p, .tokenNotFound, 0)
  else if env.actualBalance = 0 then (p, .nothingToClose, 0)
  else if ¬ env.executorConfigured then (p, .configMissing, 0)
  else if ¬ env.routerConfigured then (p, .configMissing, 0)
  else if ¬ env.approvalOk ∧ ¬ env.alreadyApproved then
    (p, .approvalFailed, 1)
  else if ¬ env.submitOk then (p, .submitFailed, 2)
  else
    let exitPrice := env.oraclePrice
    let pnl :=
      if p.side = .LONG then (exitPrice - p.entryPrice) * env.actualBalance
      else (p.entryPrice - exitPrice) * env.actualBalance
    ({ p with
        closedAt := some env.now
        exitPrice := some exitPrice
        exitTxHash := some env.submitTxHash
        qty := env.actualBalance
        pnl := some pnl },
      .closed, 2)

/-- Environment consumed by one open invocation of
TradeExecutor.executeSpotTrade: the adapter's execution summary, the
live balance it reports, the token registry lookup, the signal's size
model, configuration presence, and the outcome of the on-chain open
submission. The auto-setup steps (capital init, whitelist, approval)
issue chain transactions but never touch the store, so they do not
appear in the persistence effects. -/
structure SpotEnv where
  summaryCanExecute : Bool
  usdcBalance : ℚ
  tokenRegistered : Bool
  sizeModel : SizeModel
  executorConfigured : Bool
  routerConfigured : Bool
  submitOk : Bool
  submitTxHash : ℕ
deriving DecidableEq, Repr

/-- Store writes performed by one open invocation: whether a Position
row was created and whether the Signal row was mutated (the
proof-of-intent update). -/
structure DbEffects where
  positionCreated : Bool
  signalUpdated : Bool
deriving DecidableEq, Repr

/-- Structured results of executeSpotTrade; every failure is a returned
value, never an uncaught exception. -/
inductive SpotOutcome
  | ok (txHash : ℕ)
  | cannotExecute
  | tokenNotFound
  | tooSmall
  | insufficientBalance
  | configMissing
  | routerMissing
  | submitFailed
deriving DecidableEq, Repr

/-- Success flag of a spot outcome. -/
def SpotOutcome.success : SpotOutcome → Bool
  | .ok _ => true
  | _ => false

/-- TradeExecutor.executeSpotTrade lines 310-624 with its store writes
made explicit, in source order: execution summary gate, token registry
lookup, the sizing checks, configuration checks, the on-chain open
submission, and only after a successful submission the signal update
and the position creation. -/
def executeSpotTrade (env : SpotEnv) : SpotOutcome × DbEffects :=
  if ¬ env.summaryCanExecute then (.cannotExecute, ⟨false, false⟩)
  else if ¬ env.tokenRegistered then (.tokenNotFound, ⟨false, false⟩)
  else
    match sizingDecision env.sizeModel env.usdcBalance with
    | .tooSmall => (.tooSmall, ⟨false, false⟩)
    | .insufficientBalance => (.insufficientBalance, ⟨false, false⟩)
    | .proceed _ =>
      if ¬ env.executorConfigured then (.configMissing, ⟨false, false⟩)
      else if ¬ env.routerConfigured then (.routerMissing, ⟨false, false⟩)
      else if ¬ env.submitOk then (.submitFailed, ⟨false, false⟩)
      else (.ok env.submitTxHash, ⟨true, true⟩)

/-- Deployment lifecycle status (agent_deployments.status). -/
inductive DeployStatus
  | ACTIVE
  | PAUSED
deriving DecidableEq, Repr

/-- An agent_deployments row, restricted to the gating fields: status,
subscription activity, and the cached module-enabled flag (the stored
column, a cache of on-chain truth). -/
structure DeploymentRec where
  status : DeployStatus
  subActive : Bool
  moduleEnabledCached : Bool
deriving DecidableEq, Repr

/-- On-chain facts about the deployment's Safe at decision time. -/
structure ChainState where
  safeDeployed : Bool
  moduleEnabledOnChain : Bool
deriving DecidableEq, Repr

/-- Modelled from the spec: SafeWalletService.validateSafe lives in
lib/safe-wallet.ts, which is not among the provided sources (only its
callers are). Spec section 4.5 opens the execute sequence with
"validate Safe readiness (module enabled, on-chain)", so the check is
modelled as requiring the Safe to exist on-chain with the trading
module enabled on-chain. -/
def validateSafe (chain : ChainState) : Bool :=
  chain.safeDeployed && chain.moduleEnabledOnChain

/-- Deployment selection of the execute-trade handler (and of the trade
executor worker): only deployments with status ACTIVE, an active
subscription, and the cached moduleEnabled flag set are picked up. -/
def handlerSelects (d : DeploymentRec) : Bool :=
  decide (d.status = .ACTIVE) && d.subActive && d.moduleEnabledCached

/-- End-to-end gate for one money-moving open: the handler's deployment
selection, then executeSignalInternal's Safe validation, then the
pre-trade validator, then the spot execution itself. The trade reaches
the chain with success only when every stage passes. -/
def tradeExecutes (d : DeploymentRec) (chain : ChainState)
    (pre : PreTradeInput) (env : SpotEnv) : Bool :=
  handlerSelects d && validateSafe chain &&
    (preTradeValidation pre).canExecute &&
    (executeSpotTrade env).1.success

/-- On-chain module entry points reached by the execution gateway. -/
inductive ModuleFn
  | executeTrade
  | executeTradeWithIntent
  | closePosition
deriving DecidableEq, Repr

/-- The call the gateway submits to the module: which function, and the
uint24 poolFee argument passed to it. -/
structure ModuleCall where
  fn : ModuleFn
  poolFee : ℕ
  amountIn : ℕ
  minAmountOut : ℕ
deriving DecidableEq, Repr

/-- Parameters of SafeModuleService.executeTrade relevant to call
construction: the optional proof-of-intent pair routes to the intent
variant. -/
structure TradeCallParams where
  amountIn : ℕ
  minAmountOut : ℕ
  signalHash : Option ℕ
  creatorAddress : Option ℕ
deriving DecidableEq, Repr

/-- SafeModuleService.executeTrade lines 662-730 and
executeTradeWithIntent lines 736-807: both hardcode
const poolFee = 3000 regardless of any quote fee tier. -/
def executeTradeCall (p : TradeCallParams) : ModuleCall :=
  if p.signalHash.isSome && p.creatorAddress.isSome then
    { fn := .executeTradeWithIntent, poolFee := 3000,
      amountIn := p.amountIn, minAmountOut := p.minAmountOut }
  else
    { fn := .executeTrade, poolFee := 3000,
      amountIn := p.amountIn, minAmountOut := p.minAmountOut }

/-- SafeModuleService.closePosition lines 812-870: poolFee is the
constant 3000 here as well. -/
def closePositionCall (amountIn minAmountOut _entryValueUSDC : ℕ) :
    ModuleCall :=
  { fn := .closePosition, poolFee := 3000,
    amountIn := amountIn, minAmountOut := minAmountOut }

/-- Results of one open invocation racing for a (deployment, signal)
pair: created a row, skipped because the pre-check found one, or hit
the unique-index rejection on create. -/
inductive OpenOutcome
  | created
  | skippedExisting
  | duplicateKey
deriving DecidableEq, Repr

/-- Control point of one racing open invocation: before its duplicate
pre-check (position.findUnique on deploymentId_signalId), after the
pre-check observed no row, or finished. -/
inductive OpenPhase
  | start
  | checkedAbsent
  | finished (r : OpenOutcome)
deriving DecidableEq, Repr

/-- Shared state of the race for one (deployment, signal) pair: the
number of Position rows in the store for that pair, and the control
points of the concurrent invocations. -/
structure RaceState where
  positionsForKey : ℕ
  procs : List OpenPhase
deriving DecidableEq, Repr

/-- One atomic action of one invocation against the store. The
pre-check (handler lines 101-114) reads the row count and either skips
or proceeds; the create (executeSpotTrade line 585) is an atomic
insert-if-absent thanks to the unique index
positions_deployment_id_signal_id_key: it inserts when no row exists
and rejects with a duplicate-key error otherwise. -/
def stepOne (store : ℕ) : OpenPhase → ℕ × OpenPhase
  | .start =>
    if store ≠ 0 then (store, .finished .skippedExisting)
    else (store, .checkedAbsent)
  | .checkedAbsent =>
    if store ≠ 0 then (store, .finished .duplicateKey)
    else (store + 1, .finished .created)
  | .finished r => (store, .finished r)

/-- Run the next atomic action of the i-th invocation. -/
def stepAt (store : ℕ) : List OpenPhase → ℕ → ℕ × List OpenPhase
  | [], _ => (store, [])
  | ph :: rest, 0 =>
    let r := stepOne store ph
    (r.1, r.2 :: rest)
  | ph :: rest, n + 1 =>
    let r := stepAt store rest n
    (r.1, ph :: r.2)

/-- Apply one scheduled action to the race state. -/
def raceStep (s : RaceState) (i : ℕ) : RaceState :=
  let r := stepAt s.positionsForKey s.procs i
  ⟨r.1, r.2⟩

/-- Run an arbitrary interleaving, given as the list of invocation
indices in the order their atomic actions hit the store. -/
def runSched (s : RaceState) : List ℕ → RaceState
  | [] => s
  | i :: rest => runSched (raceStep s i) rest

/-- Initial race state: no row yet, n invocations about to run. -/
def initRace (n : ℕ) : RaceState :=
  ⟨0, List.replicate n .start⟩

/-- Number of invocations that finished having created the row. -/
def countCreated (procs : List OpenPhase) : ℕ :=
  procs.countP (fun ph => ph == .finished .created)

/-- Number of invocations that finished with a duplicate-style result
(skipped at the pre-check or rejected by the unique index). -/
def countDupStyle (procs : List OpenPhase) : ℕ :=
  procs.countP (fun ph =>
    ph == .finished .skippedExisting || ph == .finished .duplicateKey)

/-- Every invocation has finished. -/
def allDone (procs : List OpenPhase) : Bool :=
  procs.all (fun ph =>
    match ph with
    | .finished _ => true
    | _ => false)

lemma acquireSeq_chain (rs : List ℕ) :
    ∀ n : ℕ, List.Chain' (· < ·) (n :: acquireSeq (some n) rs) := by
  induction rs with
  | nil => intro n; simp [acquireSeq]
  | cons r rs ih =>
    intro n
    have h1 : n < nonceStep (some n) r :=
      lt_of_lt_of_le (Nat.lt_succ_self n) (le_max_left _ _)
    have h2 := ih (nonceStep (some n) r)
    simp only [acquireSeq]
    exact List.chain'_cons.mpr ⟨h1, h2⟩

/-- C4. Nonce coordination (SafeModuleService.getNextNonce): for every
serialized sequence of acquisitions on one executor identity, whatever
the on-chain transaction counts read along the way, the returned nonces
are strictly increasing with no duplicates; the first acquisition
returns the on-chain count, and every later one returns the maximum of
the cached nonce plus one and the freshly re-read on-chain count. -/
theorem nonce_monotonic :
    (∀ reads : List ℕ, List.Chain' (· < ·) (acquireSeq none reads)) ∧
    (∀ reads : List ℕ, (acquireSeq none reads).Nodup) ∧
    (∀ (r : ℕ) (rs : List ℕ),
      acquireSeq none (r :: rs) = r :: acquireSeq (some r) rs) ∧
    (∀ c r : ℕ, nonceStep (some c) r = max (c + 1) r) := by
  have hchain : ∀ reads : List ℕ, List.Chain' (· < ·) (acquireSeq none reads) := by
    intro reads
    cases reads with
    | nil => simp [acquireSeq]
    | cons r rs =>
      have := acquireSeq_chain rs r
      simpa [acquireSeq, nonceStep] using this
  refine ⟨hchain, ?_, ?_, ?_⟩
  · intro reads
    have hp : (acquireSeq none reads).Pairwise (· < ·) :=
      List.chain'_iff_pairwise.mp (hchain reads)
    exact hp.imp (fun h => Nat.ne_of_lt h)
  · intro r rs; rfl
  · intro c r; rfl

/-- C7. Position sizing (TradeExecutor.executeSpotTrade): with balance
1000, a balance-percentage 5 model requests a 50 USDC notional; a
fixed-usdc 30 model requests 30; and a fixed-usdc 2000 model against a
1000 balance is rejected as insufficient balance rather than clamped. -/
theorem position_size_computation :
    sizingDecision ⟨.balancePercentage, some 5⟩ 1000 = .proceed 50 ∧
    sizingDecision ⟨.fixedUsdc, some 30⟩ 1000 = .proceed 30 ∧
    sizingDecision ⟨.fixedUsdc, some 2000⟩ 1000 = .insufficientBalance := by
  refine ⟨?_, ?_, ?_⟩ <;> norm_num [sizingDecision, positionSizeOf, jsOrQ]

/-- C9. Take-profit boundary and first-trigger-wins
(position-monitor-v2.ts): in a cycle where the trailing stop did not
trigger, a long position with a non-zero absolute take-profit triggers
TAKE_PROFIT exactly when the current price has reached or passed it; in
a cycle where the trailing stop triggered, the reason is TRAILING_STOP
and the take-profit check is skipped, so at most one close is attempted
per cycle. Concretely for takeProfit 120: price 120 triggers, 119.999
does not. -/
theorem takeProfit_boundary_and_skip :
    (∀ (side : Side) (entry : ℚ) (tp : TrailingParams) (t price : ℚ),
      side.isLong = true → t ≠ 0 →
      (trailingCheck side entry tp price).2 = false →
      ((monitorStep side entry tp (some t) price).2 = some .TAKE_PROFIT ↔
        t ≤ price)) ∧
    (∀ (side : Side) (entry : ℚ) (tp : TrailingParams)
        (takeProfit : Option ℚ) (price : ℚ),
      (trailingCheck side entry tp price).2 = true →
      (monitorStep side entry tp takeProfit price).2 = some .TRAILING_STOP) ∧
    (monitorStep .LONG 100 noTrailParams (some 120) 120).2
      = some .TAKE_PROFIT ∧
    (monitorStep .LONG 100 noTrailParams (some 120) 119.999).2 = none := by
  refine ⟨?_, ?_, ?_, ?_⟩
  · intro side entry tp t price hlong ht hnt
    simp only [monitorStep, hnt, Bool.false_eq_true, if_false]
    by_cases hc : t ≤ price <;>
      simp [takeProfitCheck, ht, hlong, hc, ge_iff_le]
  · intro side entry tp takeProfit price htr
    simp [monitorStep, htr]
  · norm_num [monitorStep, trailingCheck, takeProfitCheck, noTrailParams,
      jsOrQ, Side.isLong]
  · norm_num [monitorStep, trailingCheck, takeProfitCheck, noTrailParams,
      jsOrQ, Side.isLong]

/-- Witness for C9: concrete application at takeProfit 120, price 121,
with the trailing stop disabled. -/
theorem takeProfit_boundary_and_skip_witness :
    (monitorStep .LONG 100 noTrailParams (some 120) 121).2
      = some .TAKE_PROFIT :=
  (takeProfit_boundary_and_skip.1 .LONG 100 noTrailParams 120 121 rfl
    (by norm_num)
    (by norm_num [trailingCheck, noTrailParams])).mpr (by norm_num)

/-- C10. Pool fee constant: every swap the execution gateway submits
(executeTrade, executeTradeWithIntent, closePosition) carries the
hardcoded uint24 pool fee 3000 (0.3%), independent of inputs. -/
theorem module_calls_pool_fee_3000 :
    (∀ p : TradeCallParams, (executeTradeCall p).poolFee = 3000) ∧
    (∀ a m e : ℕ, (closePositionCall a m e).poolFee = 3000) := by
  constructor
  · intro p
    unfold executeTradeCall
    by_cases h : p.signalHash.isSome && p.creatorAddress.isSome <;> simp [h]
  · intro a m e; rfl

lemma trailingCheck_low (tp : TrailingParams) (price : ℚ)
    (hhp : jsOrQ tp.highestPrice 100 < 103) (hp : price < 103) :
    (trailingCheck .LONG 100 tp price).2 = false ∧
    jsOrQ (trailingCheck .LONG 100 tp price).1.highestPrice 100 < 103 := by
  unfold trailingCheck
  by_cases he : tp.enabled
  · have hact : ¬ (max (jsOrQ tp.highestPrice 100) price ≥ 100 * (103 / 100)) := by
      have : max (jsOrQ tp.highestPrice 100) price < 103 := max_lt hhp hp
      intro hcon
      have : (103 : ℚ) ≤ max (jsOrQ tp.highestPrice 100) price := by
        calc (103 : ℚ) = 100 * (103 / 100) := by norm_num
        _ ≤ _ := hcon
      linarith [max_lt hhp hp]
    by_cases hup : max (jsOrQ tp.highestPrice 100) price > jsOrQ tp.highestPrice 100
    · have hmax : max (jsOrQ tp.highestPrice 100) price < 103 := max_lt hhp hp
      have hjs : jsOrQ (some (max (jsOrQ tp.highestPrice 100) price)) 100 < 103 := by
        rw [show jsOrQ (some (max (jsOrQ tp.highestPrice 100) price)) 100
            = if max (jsOrQ tp.highestPrice 100) price = 0 then 100
              else max (jsOrQ tp.highestPrice 100) price from rfl]
        by_cases hz : max (jsOrQ tp.highestPrice 100) price = 0
        · simp only [hz, if_true, eq_self_iff_true]
          norm_num
        · simpa [hz] using hmax
      simp [he, Side.isLong, hup, hact, hjs]
    · simp [he, Side.isLong, hup, hact, hhp]
  · simp [he, hhp]

lemma monitorRun_low (path : List ℚ) :
    ∀ tp : TrailingParams, jsOrQ tp.highestPrice 100 < 103 →
    (∀ p ∈ path, p < 103) →
    monitorRun .LONG 100 none tp path = none := by
  induction path with
  | nil => intro tp _ _; rfl
  | cons price rest ih =>
    intro tp hhp hall
    have hp : price < 103 := hall price (List.mem_cons_self _ _)
    have hlow := trailingCheck_low tp price hhp hp
    have hstep : monitorStep .LONG 100 tp none price
        = ((trailingCheck .LONG 100 tp price).1, none) := by
      simp [monitorStep, hlow.1, takeProfitCheck]
    simp only [monitorRun, hstep]
    exact ih _ hlow.2 (fun p hm => hall p (List.mem_cons_of_mem _ hm))

/-- C3 counterexample: the price path [103, 101] never exceeds 103
(both prices are at most 103), yet the monitor triggers a TRAILING_STOP
close on it: the mark reaches exactly 103, which meets the 3%
activation threshold 100 * 1.03, and 101 then retraces more than 1%. -/
theorem trailing_never_exceed_counterexample :
    ((103 : ℚ) ≤ 103 ∧ (101 : ℚ) ≤ 103) ∧
    monitorRun .LONG 100 none initialTrailing [103, 101]
      = some (101, .TRAILING_STOP) := by
  refine ⟨⟨le_refl _, by norm_num⟩, ?_⟩
  norm_num [monitorRun, monitorStep, trailingCheck, takeProfitCheck,
    initialTrailing, jsOrQ, Side.isLong]

/-- C3 (amended). Trailing-stop correctness, long side, entry 100,
activation 3%, trailingPercent 1%: the price path
[100, 104, 106, 105, 104.8] triggers a TRAILING_STOP close at 104.8,
the first price at or below 106 * 0.99 = 104.94 once active; and any
price path whose prices all stay strictly below 103 never triggers a
close. -/
theorem trailing_stop_long_correct :
    monitorRun .LONG 100 none initialTrailing [100, 104, 106, 105, 104.8]
      = some (104.8, .TRAILING_STOP) ∧
    ∀ path : List ℚ, (∀ p ∈ path, p < 103) →
      monitorRun .LONG 100 none initialTrailing path = none := by
  constructor
  · norm_num [monitorRun, monitorStep, trailingCheck, takeProfitCheck,
      initialTrailing, jsOrQ, Side.isLong]
  · intro path hall
    exact monitorRun_low path initialTrailing (by norm_num [initialTrailing, jsOrQ]) hall

/-- Witness for C3: a concrete path staying strictly below 103 produces
no trigger. -/
theorem trailing_stop_long_correct_witness :
    monitorRun .LONG 100 none initialTrailing [102, 99] = none :=
  trailing_stop_long_correct.2 [102, 99] (by norm_num)

/-- C2. Idempotent close (TradeExecutor.closePosition): a position
whose closedAt is set short-circuits before any chain interaction,
returning the structured already-closed result with zero submissions
and no mutation; consequently a close that succeeded makes every later
close of the same record a pure no-op, so two sequential closes perform
exactly one state transition and never two exit records. -/
theorem closePosition_idempotent :
    (∀ (p : PositionRec) (env : CloseEnv), p.closedAt.isSome = true →
      closePositionExec p env = (p, .alreadyClosed, 0)) ∧
    (∀ (p : PositionRec) (env env2 : CloseEnv),
      (closePositionExec p env).2.1 = .closed →
      closePositionExec (closePositionExec p env).1 env2 =
        ((closePositionExec p env).1, .alreadyClosed, 0)) := by
  have base : ∀ (p : PositionRec) (env : CloseEnv), p.closedAt.isSome = true →
      closePositionExec p env = (p, .alreadyClosed, 0) := by
    intro p env h
    unfold closePositionExec
    simp [h]
  refine ⟨base, ?_⟩
  intro p env env2 hcl
  have hsome : (closePositionExec p env).1.closedAt.isSome = true := by
    unfold closePositionExec at hcl ⊢
    split_ifs at hcl ⊢ <;> simp_all
  exact base _ _ hsome

/-- Witness for C2: a concrete open long position successfully closed
once; the second close is the structured no-op. -/
theorem closePosition_idempotent_witness :
    closePositionExec
        (closePositionExec ⟨none, none, none, 5, none, 100, .LONG⟩
          ⟨true, 5, 110, true, false, true, true, true, 42, 7⟩).1
        ⟨true, 5, 110, true, false, true, true, true, 43, 8⟩ =
      ((closePositionExec ⟨none, none, none, 5, none, 100, .LONG⟩
          ⟨true, 5, 110, true, false, true, true, true, 42, 7⟩).1,
        .alreadyClosed, 0) :=
  closePosition_idempotent.2 ⟨none, none, none, 5, none, 100, .LONG⟩
    ⟨true, 5, 110, true, false, true, true, true, 42, 7⟩
    ⟨true, 5, 110, true, false, true, true, true, 43, 8⟩
    (by norm_num [closePositionExec])

/-- C6. Failure persists nothing (TradeExecutor.executeSpotTrade):
every invocation that fails before the open transaction is successfully
submitted returns a structured non-success result and performs no store
write: no Position row is created and the Signal row is not mutated;
a Position is created exactly when the invocation succeeds. -/
theorem open_failure_persists_nothing :
    ∀ env : SpotEnv,
      ((executeSpotTrade env).1.success = false →
        (executeSpotTrade env).2 = ⟨false, false⟩) ∧
      ((executeSpotTrade env).2.positionCreated = true ↔
        (executeSpotTrade env).1.success = true) := by
  intro env
  unfold executeSpotTrade
  by_cases h1 : env.summaryCanExecute <;>
    by_cases h2 : env.tokenRegistered <;>
      simp only [h1, h2, Bool.not_true, Bool.not_false, if_true, if_false,
        Bool.false_eq_true, not_false_eq_true, ite_true, ite_false,
        SpotOutcome.success] <;>
    try simp
  rcases h3 : sizingDecision env.sizeModel env.usdcBalance with n | _ | _ <;>
    simp only [SpotOutcome.success] <;>
    by_cases h4 : env.executorConfigured <;>
      by_cases h5 : env.routerConfigured <;>
        by_cases h6 : env.submitOk <;>
          simp [h4, h5, h6, SpotOutcome.success]

/-- Witness for C6: a concrete invocation rejected by the execution
summary persists nothing. -/
theorem open_failure_persists_nothing_witness :
    (executeSpotTrade
        ⟨false, 1000, true, ⟨.balancePercentage, some 5⟩, true, true, true, 9⟩).2 =
      ⟨false, false⟩ :=
  (open_failure_persists_nothing
    ⟨false, 1000, true, ⟨.balancePercentage, some 5⟩, true, true, true, 9⟩).1
    (by norm_num [executeSpotTrade, SpotOutcome.success])

/-- C5. Execution gate: a trade reaches successful execution for a
deployment only when the deployment's status is ACTIVE, its
subscription is active, and the trading module is enabled on-chain as
checked by the Safe validation step at decision time (the cached flag
is only the handler's pre-filter, never the sole gate). The Safe
validation is modelled from the spec because lib/safe-wallet.ts is not
among the provided sources. -/
theorem trade_executes_only_verified :
    ∀ (d : DeploymentRec) (chain : ChainState) (pre : PreTradeInput)
      (env : SpotEnv),
      tradeExecutes d chain pre env = true →
        d.status = .ACTIVE ∧ d.subActive = true ∧
          chain.moduleEnabledOnChain = true := by
  intro d chain pre env h
  unfold tradeExecutes handlerSelects validateSafe at h
  simp only [Bool.and_eq_true, decide_eq_true_eq] at h
  exact ⟨h.1.1.1.1.1, h.1.1.1.1.2, h.1.1.2.2⟩

/-- Witness for C5: a concrete fully-verified deployment executes, and
the theorem recovers the three verified facts. -/
theorem trade_executes_only_verified_witness :
    (⟨.ACTIVE, true, true⟩ : DeploymentRec).status = .ACTIVE ∧
    (⟨.ACTIVE, true, true⟩ : DeploymentRec).subActive = true ∧
    (⟨true, true⟩ : ChainState).moduleEnabledOnChain = true :=
  trade_executes_only_verified ⟨.ACTIVE, true, true⟩ ⟨true, true⟩
    ⟨true, 1000, 5, .SPOT, true⟩
    ⟨true, 1000, true, ⟨.balancePercentage, some 5⟩, true, true, true, 9⟩
    (by norm_num [tradeExecutes, handlerSelects, validateSafe,
      preTradeValidation, executeSpotTrade, sizingDecision, positionSizeOf,
      jsOrQ, SpotOutcome.success])

/-- C8. Pre-trade validator (TradeExecutor.preTradeValidation): a pure
decision function checking, in order and short-circuiting on the first
failure, (1) the venue constraint record exists, (2) the base-asset
balance is non-zero, (3) the collateral computed against the current
balance is non-zero — which, for positive balance and non-negative size
value, is exactly the signal's size model yielding a position size
above the fixed minimum notional of zero — and (4) for SPOT the token
is registered for the chain; canExecute is true exactly when all four
checks pass. -/
theorem preTradeValidation_checks :
    (∀ i : PreTradeInput, i.venueStatusExists = false →
      preTradeValidation i = ⟨false, some .venueUnavailable⟩) ∧
    (∀ i : PreTradeInput, i.venueStatusExists = true → i.usdcBalance = 0 →
      preTradeValidation i = ⟨false, some .noCollateral⟩) ∧
    (∀ i : PreTradeInput, i.venueStatusExists = true → i.usdcBalance ≠ 0 →
      i.usdcBalance * i.sizeValue / 100 = 0 →
      preTradeValidation i = ⟨false, some .positionTooSmall⟩) ∧
    (∀ i : PreTradeInput, i.venueStatusExists = true → i.usdcBalance ≠ 0 →
      i.usdcBalance * i.sizeValue / 100 ≠ 0 → i.venue = .SPOT →
      i.tokenRegistered = false →
      preTradeValidation i = ⟨false, some .tokenNotRegistered⟩) ∧
    (∀ i : PreTradeInput, (preTradeValidation i).canExecute = true ↔
      (i.venueStatusExists = true ∧ i.usdcBalance ≠ 0 ∧
        i.usdcBalance * i.sizeValue / 100 ≠ 0 ∧
        (i.venue = .SPOT → i.tokenRegistered = true))) ∧
    (∀ (t : SizeModelType) (bal v : ℚ), 0 < bal → 0 ≤ v →
      (bal * v / 100 = 0 ↔ specPositionSize t v bal ≤ 0)) := by
  refine ⟨?_, ?_, ?_, ?_, ?_, ?_⟩
  · intro i h; unfold preTradeValidation; simp [h]
  · intro i h1 h2; unfold preTradeValidation; simp [h1, h2]
  · intro i h1 h2 h3; unfold preTradeValidation; simp [h1, h2, h3]
  · intro i h1 h2 h3 h4 h5; unfold preTradeValidation; simp [h1, h2, h3, h4, h5]
  · intro i
    unfold preTradeValidation
    by_cases h1 : i.venueStatusExists <;>
      by_cases h2 : i.usdcBalance = 0 <;>
        by_cases h3 : i.usdcBalance * i.sizeValue / 100 = 0 <;>
          by_cases h4 : i.venue = .SPOT <;>
            by_cases h5 : i.tokenRegistered <;>
              simp [h1, h2, h3, h4, h5]
  · intro t bal v hbal hv
    have hmul : bal * v / 100 = 0 ↔ v = 0 := by
      constructor
      · intro h
        have : bal * v = 0 := by
          field_simp at h
          exact h
        rcases mul_eq_zero.mp this with hb | hz
        · exact absurd hb (ne_of_gt hbal)
        · exact hz
      · intro h; rw [h]; ring
    cases t with
    | fixedUsdc =>
      unfold specPositionSize
      rw [hmul]
      constructor
      · intro h; rw [h]
      · intro h; exact le_antisymm h hv
    | balancePercentage =>
      unfold specPositionSize
      constructor
      · intro h; rw [h]
      · intro h
        have hnn : 0 ≤ bal * v / 100 := by positivity
        exact le_antisymm h hnn

/-- Witness for C8: a missing venue constraint record rejects with the
venue-unavailable reason. -/
theorem preTradeValidation_checks_witness :
    preTradeValidation ⟨false, 1000, 5, .SPOT, true⟩ =
      ⟨false, some .venueUnavailable⟩ :=
  preTradeValidation_checks.1 ⟨false, 1000, 5, .SPOT, true⟩ rfl

/-- Race invariant: the store's row count for the pair equals the
number of finished creators plus the creations k accounted outside the
tracked slice, never exceeds one, and while no row exists every tracked
invocation is still pending. -/
def RaceInv (store : ℕ) (procs : List OpenPhase) (k : ℕ) : Prop :=
  store = countCreated procs + k ∧ store ≤ 1 ∧
    (store = 0 → ∀ ph ∈ procs, ph = .start ∨ ph = .checkedAbsent)

lemma countCreated_cons (ph : OpenPhase) (rest : List OpenPhase) :
    countCreated (ph :: rest) =
      countCreated rest + (if ph == OpenPhase.finished .created then 1 else 0) := by
  simp [countCreated, List.countP_cons]

lemma stepAt_inv : ∀ (procs : List OpenPhase) (i store k : ℕ),
    RaceInv store procs k →
    RaceInv (stepAt store procs i).1 (stepAt store procs i).2 k ∧
      store ≤ (stepAt store procs i).1 := by
  intro procs
  induction procs with
  | nil =>
    intro i store k h
    exact ⟨h, le_refl store⟩
  | cons ph rest ih =>
    intro i store k h
    obtain ⟨hc, hle, hpend⟩ := h
    cases i with
    | zero =>
      cases ph with
      | start =>
        by_cases hs : store = 0
        · have hred : stepAt store (OpenPhase.start :: rest) 0
              = (store, OpenPhase.checkedAbsent :: rest) := by
            simp [stepAt, stepOne, hs]
          rw [hred]
          refine ⟨⟨?_, hle, ?_⟩, le_refl _⟩
          · rw [countCreated_cons] at hc
            rw [countCreated_cons]
            simpa using hc
          · intro h0 ph2 hm
            rcases List.mem_cons.mp hm with hh | hh
            · right; exact hh
            · exact hpend hs ph2 (List.mem_cons_of_mem _ hh)
        · have hred : stepAt store (OpenPhase.start :: rest) 0
              = (store, OpenPhase.finished .skippedExisting :: rest) := by
            simp [stepAt, stepOne, hs]
          rw [hred]
          refine ⟨⟨?_, hle, ?_⟩, le_refl _⟩
          · rw [countCreated_cons] at hc
            rw [countCreated_cons]
            simpa using hc
          · intro h0
            exact absurd h0 hs
      | checkedAbsent =>
        by_cases hs : store = 0
        · have hred : stepAt store (OpenPhase.checkedAbsent :: rest) 0
              = (store + 1, OpenPhase.finished .created :: rest) := by
            simp [stepAt, stepOne, hs]
          rw [hred]
          have hC : countCreated rest + k = 0 := by
            rw [countCreated_cons] at hc
            omega
          refine ⟨⟨?_, ?_, ?_⟩, Nat.le_succ _⟩
          · rw [countCreated_cons]
            simp only [hs, beq_self_eq_true, if_true]
            omega
          · omega
          · intro h0
            exact absurd h0 (by omega)
        · have hred : stepAt store (OpenPhase.checkedAbsent :: rest) 0
              = (store, OpenPhase.finished .duplicateKey :: rest) := by
            simp [stepAt, stepOne, hs]
          rw [hred]
          refine ⟨⟨?_, hle, ?_⟩, le_refl _⟩
          · rw [countCreated_cons] at hc
            rw [countCreated_cons]
            simpa using hc
          · intro h0
            exact absurd h0 hs
      | finished r =>
        have hred : stepAt store (OpenPhase.finished r :: rest) 0
            = (store, OpenPhase.finished r :: rest) := by
          simp [stepAt, stepOne]
        rw [hred]
        exact ⟨⟨hc, hle, hpend⟩, le_refl _⟩
    | succ n =>
      have hcrest : RaceInv store rest
          (k + (if ph == OpenPhase.finished .created then 1 else 0)) := by
        refine ⟨?_, hle, ?_⟩
        · rw [countCreated_cons] at hc
          omega
        · intro h0 ph2 hm
          exact hpend h0 ph2 (List.mem_cons_of_mem _ hm)
      obtain ⟨⟨hc2, hle2, hpend2⟩, hmono⟩ := ih n store _ hcrest
      refine ⟨⟨?_, ?_, ?_⟩, ?_⟩
      · simp only [stepAt, countCreated_cons]
        omega
      · simpa [stepAt] using hle2
      · intro h0 ph2 hm
        simp only [stepAt] at h0 hm
        rcases List.mem_cons.mp hm with hh | hh
        · subst hh
          have hs0 : store = 0 := by omega
          exact hpend hs0 ph2 (List.mem_cons_self _ _)
        · exact hpend2 h0 ph2 hh
      · simpa [stepAt] using hmono

lemma runSched_inv : ∀ (sched : List ℕ) (s : RaceState) (k : ℕ),
    RaceInv s.positionsForKey s.procs k →
    RaceInv (runSched s sched).positionsForKey (runSched s sched).procs k := by
  intro sched
  induction sched with
  | nil => intro s k h; exact h
  | cons i rest ih =>
    intro s k h
    exact ih (raceStep s i) k (stepAt_inv s.procs i s.positionsForKey k h).1

lemma stepAt_length : ∀ (procs : List OpenPhase) (i store : ℕ),
    (stepAt store procs i).2.length = procs.length := by
  intro procs
  induction procs with
  | nil => intro i store; rfl
  | cons ph rest ih =>
    intro i store
    cases i with
    | zero => simp [stepAt]
    | succ n => simp [stepAt, ih n store]

lemma runSched_length : ∀ (sched : List ℕ) (s : RaceState),
    (runSched s sched).procs.length = s.procs.length := by
  intro sched
  induction sched with
  | nil => intro s; rfl
  | cons i rest ih =>
    intro s
    rw [runSched, ih (raceStep s i)]
    exact stepAt_length s.procs i s.positionsForKey

lemma countCreated_replicate (n : ℕ) :
    countCreated (List.replicate n OpenPhase.start) = 0 := by
  induction n with
  | zero => rfl
  | succ m ih => simp [List.replicate_succ, countCreated, List.countP_cons, ih]

lemma done_counts : ∀ procs : List OpenPhase, allDone procs = true →
    countCreated procs + countDupStyle procs = procs.length := by
  intro procs
  induction procs with
  | nil => intro _; rfl
  | cons ph rest ih =>
    intro h
    rw [allDone, List.all_cons, Bool.and_eq_true] at h
    obtain ⟨hph, hrest⟩ := h
    have hihr := ih hrest
    cases ph with
    | start => simp at hph
    | checkedAbsent => simp at hph
    | finished r =>
      cases r <;>
        simp [countCreated, countDupStyle, List.countP_cons] at hihr ⊢ <;>
        omega

/-- C1. Uniqueness of Position per (deployment, signal): under the
unique index positions_deployment_id_signal_id_key, for every number of
concurrent open invocations racing for the same pair and every
interleaving of their check and create actions, the store never holds
more than one Position row for the pair; and once all invocations
finish (with at least one of them), exactly one row exists, exactly one
invocation created it, and every other invocation ended with a
duplicate-style result (skipped at the pre-check or rejected by the
unique index) instead of creating a second row. -/
theorem position_open_race_uniqueness :
    ∀ (n : ℕ) (sched : List ℕ),
      (runSched (initRace n) sched).positionsForKey ≤ 1 ∧
      (1 ≤ n → allDone (runSched (initRace n) sched).procs = true →
        (runSched (initRace n) sched).positionsForKey = 1 ∧
        countCreated (runSched (initRace n) sched).procs = 1 ∧
        countDupStyle (runSched (initRace n) sched).procs = n - 1) := by
  intro n sched
  have hinit : RaceInv (initRace n).positionsForKey (initRace n).procs 0 := by
    refine ⟨?_, by simp [initRace], ?_⟩
    · simp [initRace, countCreated_replicate]
    · intro _ ph hm
      left
      exact List.eq_of_mem_replicate hm
  obtain ⟨hc, hle, hpend⟩ := runSched_inv sched (initRace n) 0 hinit
  refine ⟨hle, ?_⟩
  intro hn hdone
  have hlen : (runSched (initRace n) sched).procs.length = n := by
    rw [runSched_length]
    simp [initRace]
  have hstore : (runSched (initRace n) sched).positionsForKey = 1 := by
    rcases Nat.lt_or_ge (runSched (initRace n) sched).positionsForKey 1 with hlt | hge
    · exfalso
      have h0 : (runSched (initRace n) sched).positionsForKey = 0 :=
        Nat.lt_one_iff.mp hlt
      have hne : (runSched (initRace n) sched).procs ≠ [] := by
        intro hnil
        rw [hnil] at hlen
        simp at hlen
        omega
      obtain ⟨ph, hm⟩ := List.exists_mem_of_ne_nil _ hne
      rw [allDone] at hdone
      have hd := List.all_eq_true.mp hdone ph hm
      rcases hpend h0 ph hm with hh | hh <;> rw [hh] at hd <;> simp at hd
    · exact le_antisymm hle hge
  have hcount : countCreated (runSched (initRace n) sched).procs = 1 := by omega
  refine ⟨hstore, hcount, ?_⟩
  have := done_counts _ hdone
  omega

/-- Witness for C1: three invocations, an interleaving in which two
pass the pre-check before the first create lands; one row, one created,
two duplicate-style results. -/
theorem position_open_race_uniqueness_witness :
    (runSched (initRace 3) [0, 1, 0, 1, 2]).positionsForKey = 1 ∧
    countCreated (runSched (initRace 3) [0, 1, 0, 1, 2]).procs = 1 ∧
    countDupStyle (runSched (initRace 3) [0, 1, 0, 1, 2]).procs = 2 :=
  (position_open_race_uniqueness 3 [0, 1, 0, 1, 2]).2 (by norm_num) (by decide)

end Maxxit
